import Mathlib

/-!
# Verification of `simple_ecdsa` (src/main.rs)

A shallow embedding of the elliptic-curve/ECDSA arithmetic from
`src/main.rs`.  `BigUint` values are modeled as `Nat`.  A Rust panic
(failed `Point::new` validation, `BigUint` subtraction underflow,
`BigUint` modulo/modpow with too-small modulus) is modeled as `none`;
a normal return is `some`.

The `multiply` while-loop is embedded as a step function
(`multiplyStep`, one iteration of the loop body or the loop exit)
iterated with an explicit fuel (`multiplyIter`); the fuel `times + 1`
used by `Point.multiply` is proved sufficient, so `none` coincides
exactly with a panic of the source program.
-/

namespace SimpleEcdsa

/-- `CurveConfig` from src/main.rs: curve parameters `a`, `b` and the
field modulus `p`. -/
structure CurveConfig where
  a : Nat
  b : Nat
  p : Nat
deriving DecidableEq

/-- `Point` from src/main.rs: raw coordinates plus the curve configuration.
Values are only ever built through `Point.new` in the source. -/
structure Point where
  x : Nat
  y : Nat
  curve_config : CurveConfig
deriving DecidableEq

/-- Checked subtraction: `BigUint` subtraction `a - b` panics on
underflow, modeled as `none`. -/
def csub (a b : Nat) : Option Nat :=
  if b ≤ a then some (a - b) else none

/-- `mod_inverse` from src/main.rs:
`value.modpow(&(modulus - 2), modulus)`.  The subtraction `modulus - 2`
panics for `modulus < 2` (and `modpow` would reject a zero modulus),
modeled as `none`; otherwise the result is `value ^ (modulus - 2) % modulus`. -/
def mod_inverse (value modulus : Nat) : Option Nat :=
  if 2 ≤ modulus then some (value ^ (modulus - 2) % modulus) else none

/-- `Point::new` from src/main.rs: validates the curve equation
`y² ≡ x³ + a·x + b (mod p)` and panics ("The point is not on the curve")
when it fails.  The `% p` operations panic when `p = 0`. -/
def Point.new (x y : Nat) (curve_config : CurveConfig) : Option Point :=
  if curve_config.p = 0 then none
  else
    let rhs := (x * x * x + curve_config.a * x + curve_config.b) % curve_config.p
    let lhs := (y * y) % curve_config.p
    if lhs ≠ rhs then none else some ⟨x, y, curve_config⟩

/-- `Point::add` from src/main.rs.  Every Rust `BigUint` subtraction is
modeled with `csub` (panic on underflow), every intermediate panic
propagates as `none`, and the result is re-validated through
`Point.new`, exactly as in the source. -/
def Point.add (self other : Point) : Option Point :=
  let p := self.curve_config.p
  if self.x = other.x ∧ (self.y ≠ other.y ∨ self.y = 0) then
    Point.new 0 0 self.curve_config
  else
    (if self.x = other.x then
      (mod_inverse (2 * self.y) p).map fun inv =>
        (3 * self.x * self.x + self.curve_config.a) * inv % p
    else
      (if other.y < self.y then csub (other.y + p) self.y
       else csub other.y self.y).bind fun numerator =>
      (if other.x < self.x then csub (other.x + p) self.x
       else csub other.x self.x).bind fun denominator =>
      (mod_inverse denominator p).map fun inv =>
        numerator * inv % p).bind fun slope =>
    (csub (slope * slope + p) self.x).bind fun t1 =>
    (csub t1 other.x).bind fun t2 =>
    let x3 := t2 % p
    (csub (self.x + p) x3).bind fun t3 =>
    (csub (slope * t3) self.y).bind fun t4 =>
    let y3 := (t4 + p) % p
    Point.new x3 y3 self.curve_config

/-- The mutable loop state of `Point::multiply`: the running point, the
running coefficient, and the history `previous_points` (most recent
first, matching the source's backward scan of its `Vec`). -/
structure MulState where
  current : Point
  coeff : Nat
  hist : List (Nat × Point)
deriving DecidableEq

/-- One iteration of the `while` loop in `Point::multiply` (or the loop
exit, returning the final point and coefficient).  The source pushes
`(coefficient, point)` into the history first, then either doubles
(when `coefficient * 2 ≤ times`) or adds the most recent history entry
whose coefficient still fits, defaulting to `(1, self)`. -/
def multiplyStep (self : Point) (times : Nat) (s : MulState) : Option (MulState ⊕ (Point × Nat)) :=
  if s.coeff < times then
    let hist := (s.coeff, s.current) :: s.hist
    if s.coeff * 2 ≤ times then
      (s.current.add s.current).map fun pt => Sum.inl ⟨pt, s.coeff * 2, hist⟩
    else
      let next := (hist.find? fun q => decide (q.1 + s.coeff ≤ times)).getD (1, self)
      (s.current.add next.2).map fun pt => Sum.inl ⟨pt, s.coeff + next.1, hist⟩
  else
    some (Sum.inr (s.current, s.coeff))

/-- `multiplyStep` iterated `fuel` times: `some (Sum.inl s)` means the
loop is still running after `fuel` iterations, `some (Sum.inr r)` that
it exited normally, `none` that an iteration panicked. -/
def multiplyIter (self : Point) (times : Nat) : Nat → MulState → Option (MulState ⊕ (Point × Nat))
  | 0, s => some (Sum.inl s)
  | fuel + 1, s =>
    match multiplyStep self times s with
    | none => none
    | some (Sum.inr r) => some (Sum.inr r)
    | some (Sum.inl s') => multiplyIter self times fuel s'

/-- Running the `Point::multiply` loop to completion with the given fuel. -/
def multiplyLoop (self : Point) (times fuel : Nat) (s : MulState) : Option (Point × Nat) :=
  match multiplyIter self times fuel s with
  | some (Sum.inr r) => some r
  | _ => none

/-- `Point::multiply` from src/main.rs: the loop starts from
`(current_point, current_coefficient) = (self, 1)` with an empty
history and returns `current_point`.  The coefficient strictly
increases every iteration, so fuel `times + 1` is sufficient
(proved below). -/
def Point.multiply (self : Point) (times : Nat) : Option Point :=
  (multiplyLoop self times (times + 1) ⟨self, 1, []⟩).map Prod.fst

/-- The curve-order constant `n` hardcoded in `sign_message` and
`verify_signature` (secp256k1 group order). -/
def nOrder : Nat := 115792089237316195423570985008687907852837564279074904382605163141518161494337

/-- `sign_message` from src/main.rs with the random nonce `k` passed
explicitly (the source draws it from `thread_rng`).  When `r = 0` the
source retries recursively with a fresh random nonce; with the nonce
fixed this is modeled as `none`. -/
def sign_message (message private_key k : Nat) (g_point : Point) : Option (Nat × Nat) :=
  (g_point.multiply k).bind fun r_point =>
  let r := r_point.x % nOrder
  if r = 0 then none
  else
    (mod_inverse k nOrder).map fun k_inverse =>
      (r, k_inverse * (message + r * private_key) % nOrder)

/-- `verify_signature` from src/main.rs.  Note the final comparison is
`c_point.x == *r` on the raw field element, with no reduction mod `n`. -/
def verify_signature (signature : Nat × Nat) (message : Nat) (public_key g_point : Point) : Option Bool :=
  (mod_inverse signature.2 nOrder).bind fun s_inverse =>
  let u := message * s_inverse % nOrder
  let v := signature.1 * s_inverse % nOrder
  (g_point.multiply u).bind fun a1 =>
  (public_key.multiply v).bind fun b1 =>
  (a1.add b1).map fun c_point => decide (c_point.x = signature.1)

/-- A `Point` value satisfies the curve equation of its own configuration. -/
def OnCurve (pt : Point) : Prop :=
  pt.y * pt.y % pt.curve_config.p =
    (pt.x * pt.x * pt.x + pt.curve_config.a * pt.x + pt.curve_config.b) % pt.curve_config.p

/-- The secp256k1-shaped toy curve `y² = x³ + 7 mod 11`. -/
def c11 : CurveConfig := ⟨0, 7, 11⟩

/-- The curve `y² = x³ + 2x + 1 mod 3`. -/
def c3 : CurveConfig := ⟨2, 1, 3⟩

/-- The curve `y² = x³ + x mod 3`. -/
def c30 : CurveConfig := ⟨1, 0, 3⟩

/-- The curve `y² = x³ mod 7` (here `b ≡ 0`, so the `(0,0)` infinity
sentinel of the source is itself a constructible point). -/
def c7 : CurveConfig := ⟨0, 0, 7⟩

/-! ## Helper lemmas -/

/-- The loop of `Point::multiply` never runs for `times = 0`: the guard
`1 < 0` fails at once and `current_point = self` is returned. -/
lemma multiply_zero (P : Point) : Point.multiply P 0 = some P := rfl

/-- The loop of `Point::multiply` never runs for `times = 1`. -/
lemma multiply_one (P : Point) : Point.multiply P 1 = some P := rfl

/-- Unfolding lemma for one fuel step of the loop iterator. -/
lemma multiplyIter_succ (self : Point) (times fuel : Nat) (s : MulState) :
    multiplyIter self times (fuel + 1) s =
      match multiplyStep self times s with
      | none => none
      | some (Sum.inr r) => some (Sum.inr r)
      | some (Sum.inl s') => multiplyIter self times fuel s' := rfl

/-- Inverting Fermat's little-theorem exponentiation on the value 1. -/
lemma mod_inverse_one {m : Nat} (h : 2 ≤ m) : mod_inverse 1 m = some 1 := by
  unfold mod_inverse
  rw [if_pos h, one_pow, Nat.mod_eq_of_lt (by omega)]

/-- A successful `Point::new` returns exactly the given coordinates and
configuration, and the result satisfies the curve equation. -/
lemma new_some {x y : Nat} {cfg : CurveConfig} {R : Point}
    (h : Point.new x y cfg = some R) :
    R = ⟨x, y, cfg⟩ ∧ OnCurve R ∧ R.curve_config = cfg := by
  unfold Point.new at h
  simp only [ne_eq] at h
  split at h
  · exact absurd h (by simp)
  · split at h
    · exact absurd h (by simp)
    · rename_i hne
      obtain rfl : R = ⟨x, y, cfg⟩ := by injection h with h; exact h.symm
      refine ⟨rfl, ?_, rfl⟩
      unfold OnCurve
      simpa using not_not.mp hne

/-- Every successful result of `Point::add` went through the checked
constructor: it is on the curve and carries the configuration of the
left operand. -/
lemma add_some {P Q R : Point} (h : Point.add P Q = some R) :
    OnCurve R ∧ R.curve_config = P.curve_config := by
  unfold Point.add at h
  split at h
  · exact ⟨(new_some h).2.1, (new_some h).2.2⟩
  · simp only [Option.bind_eq_some, Option.map_eq_some'] at h
    obtain ⟨slope, -, h⟩ := h
    obtain ⟨t1, -, h⟩ := h
    obtain ⟨t2, -, h⟩ := h
    obtain ⟨t3, -, h⟩ := h
    obtain ⟨t4, -, h⟩ := h
    exact ⟨(new_some h).2.1, (new_some h).2.2⟩

/-- `Point::multiply` at scalar 2 performs exactly one doubling step, so
it agrees with `Point::add` of the point with itself, panics included. -/
lemma multiply_two (P : Point) : Point.multiply P 2 = Point.add P P := by
  have hstep : multiplyStep P 2 ⟨P, 1, []⟩ =
      (P.add P).map fun pt => Sum.inl ⟨pt, 1 * 2, [(1, P)]⟩ := rfl
  cases h : Point.add P P with
  | none =>
    unfold Point.multiply multiplyLoop
    rw [multiplyIter_succ, hstep, h]
    rfl
  | some pt =>
    unfold Point.multiply multiplyLoop
    rw [multiplyIter_succ, hstep, h]
    rfl

/-! ## Claim theorems -/

/-- Claim C6 (confirmed): `Point::new` fails (panics, modeled `none`)
exactly when `y² ≢ x³ + a·x + b (mod p)`, and succeeds returning a
point holding exactly `x`, `y` and the configuration when the
congruence holds.  The hypothesis `p ≠ 0` matches the spec's data model
(`p` prime); for `p = 0` the source instead panics on `% 0`. -/
theorem new_validates (x y : Nat) (cfg : CurveConfig) (hp : cfg.p ≠ 0) :
    (Point.new x y cfg = none ↔ ¬ y * y ≡ x * x * x + cfg.a * x + cfg.b [MOD cfg.p])
    ∧ (y * y ≡ x * x * x + cfg.a * x + cfg.b [MOD cfg.p] →
        Point.new x y cfg = some ⟨x, y, cfg⟩) := by
  unfold Point.new Nat.ModEq
  by_cases h : y * y % cfg.p = (x * x * x + cfg.a * x + cfg.b) % cfg.p <;>
    simp [hp, h]

/-- Witness for C6 at `(x, y) = (2, 2)` on `y² = x³ + 7 mod 11`. -/
theorem new_validates_witness :
    c11.p ≠ 0 ∧ (2 * 2 : Nat) ≡ 2 * 2 * 2 + c11.a * 2 + c11.b [MOD c11.p]
      ∧ Point.new 2 2 c11 = some ⟨2, 2, c11⟩ :=
  ⟨by decide, by decide, (new_validates 2 2 c11 (by decide)).2 (by decide)⟩

/-- Claim C4 (code_bug): for `value ≡ 0 (mod modulus)` the source's
`mod_inverse` does not fail with `NoModularInverse`; the Fermat
exponentiation silently returns the numeric result 0 (here at
`value = 0`, `modulus = 5`). -/
theorem mod_inverse_zero_returns_zero : mod_inverse 0 5 = some 0 := by decide

/-- Claim C2 (code_bug): adding the valid points `(2,2)` and `(2,9)` of
`y² = x³ + 7 mod 11` (equal x, unequal y, i.e. `P + (−P)`) does not
return a value representing infinity: the source constructs the `(0,0)`
sentinel through `Point::new`, whose validation fails (`0² ≢ 0³ + 7`),
so the program panics ("The point is not on the curve"). -/
theorem add_inverse_pair_panics :
    Point.new 2 2 c11 = some ⟨2, 2, c11⟩ ∧
    Point.new 2 9 c11 = some ⟨2, 9, c11⟩ ∧
    Point.add ⟨2, 2, c11⟩ ⟨2, 9, c11⟩ = none ∧
    Point.new 0 0 c11 = none := by decide

/-- Claim C7 (code_bug): point addition is not commutative as
implemented.  For the valid points `P = (0,2)` and `Q = (2,1)` of
`y² = x³ + 2x + 1 mod 3` (distinct x-coordinates), `P.add(Q)` panics on
`BigUint` underflow in `slope * (x₁ + p − x₃) - y₁` (the value is
`1 - 2`), while `Q.add(P)` returns `(2,2)`. -/
theorem add_not_commutative :
    Point.new 0 2 c3 = some ⟨0, 2, c3⟩ ∧
    Point.new 2 1 c3 = some ⟨2, 1, c3⟩ ∧
    Point.add ⟨0, 2, c3⟩ ⟨2, 1, c3⟩ = none ∧
    Point.add ⟨2, 1, c3⟩ ⟨0, 2, c3⟩ = some ⟨2, 2, c3⟩ := by decide

/-- Counterexample for claim C8: on `y² = x³ + x mod 3` the valid point
`P = (2,1)` has group order 4, and with `a = 2`, `b = 3`
(`a + b = 5 < n`) the two sides of the claimed homomorphism both
succeed but disagree: `P.multiply(5) = (2,2)` while
`P.multiply(2).add(P.multiply(3)) = (2,1)`. -/
theorem multiply_hom_counterexample :
    Point.new 2 1 c30 = some ⟨2, 1, c30⟩ ∧
    Point.multiply ⟨2, 1, c30⟩ 5 = some ⟨2, 2, c30⟩ ∧
    ((Point.multiply ⟨2, 1, c30⟩ 2).bind fun A =>
      (Point.multiply ⟨2, 1, c30⟩ 3).bind fun B => A.add B) = some ⟨2, 1, c30⟩ ∧
    (⟨2, 2, c30⟩ : Point) ≠ ⟨2, 1, c30⟩ := by decide

/-- Claim C8 as amended (corrected): the doubling instance of the
homomorphism, `P.add(P) = P.multiply(2)`, holds for every point (panics
included); the general additive homomorphism fails for points of small
group order (see the counterexample). -/
theorem multiply_two_eq_add_self (P : Point) : Point.multiply P 2 = Point.add P P :=
  multiply_two P

/-- Counterexample for claim C3: `multiply(0)` does not return infinity.
The loop guard `1 < 0` fails immediately and the source returns
`current_point = self` unchanged: for the valid point `(2,2)` of
`y² = x³ + 7 mod 11`, `P.multiply(0) = P`, whose x-coordinate 2 is not
the `(0,0)` infinity representation. -/
theorem multiply_zero_counterexample :
    Point.multiply ⟨2, 2, c11⟩ 0 = some ⟨2, 2, c11⟩ ∧
    (⟨2, 2, c11⟩ : Point).x ≠ 0 := by decide

/-- Claim C3 as amended (corrected): `P.multiply(0)` returns `P` itself
(not infinity), `P.multiply(1)` returns `P`, and adding the source's
`(0,0)` infinity sentinel is not an identity: on `y² = x³ mod 7`, where
`(0,0)` is constructible, `(1,1).add((0,0)) = (0,0)`, not `(1,1)`. -/
theorem multiply_identity_behavior :
    (∀ P : Point, Point.multiply P 0 = some P)
    ∧ (∀ P : Point, Point.multiply P 1 = some P)
    ∧ Point.new 0 0 c7 = some ⟨0, 0, c7⟩
    ∧ Point.new 1 1 c7 = some ⟨1, 1, c7⟩
    ∧ Point.add ⟨1, 1, c7⟩ ⟨0, 0, c7⟩ = some ⟨0, 0, c7⟩ :=
  ⟨multiply_zero, multiply_one, by decide, by decide, by decide⟩

/-! ## Termination of the `multiply` loop (C9) -/

/-- If one loop iteration keeps running, the guard held, the running
coefficient strictly increased but stayed within `times`, and every
history coefficient is still at least 1. -/
lemma multiplyStep_inl {self : Point} {times : Nat} {s s' : MulState}
    (h1 : 1 ≤ s.coeff) (hh : ∀ q ∈ s.hist, 1 ≤ q.1)
    (h : multiplyStep self times s = some (Sum.inl s')) :
    s.coeff < times ∧ s.coeff + 1 ≤ s'.coeff ∧ s'.coeff ≤ times ∧
      ∀ q ∈ s'.hist, 1 ≤ q.1 := by
  unfold multiplyStep at h
  split at h
  case isFalse => simp at h
  case isTrue hc =>
    refine ⟨hc, ?_⟩
    have hhist : ∀ q ∈ (s.coeff, s.current) :: s.hist, 1 ≤ q.1 := by
      intro q hq
      rcases List.mem_cons.mp hq with hq | hq
      · rw [hq]; exact h1
      · exact hh q hq
    split at h
    case isTrue hd =>
      simp only [Option.map_eq_some'] at h
      obtain ⟨pt, -, hpt⟩ := h
      obtain rfl : s' = ⟨pt, s.coeff * 2, (s.coeff, s.current) :: s.hist⟩ := by
        injection hpt with hpt; exact hpt.symm
      exact ⟨by dsimp only; omega, by dsimp only; omega, hhist⟩
    case isFalse hd =>
      simp only [Option.map_eq_some'] at h
      obtain ⟨pt, -, hpt⟩ := h
      cases hf : List.find? (fun q => decide (q.1 + s.coeff ≤ times))
          ((s.coeff, s.current) :: s.hist) with
      | none =>
        rw [hf] at hpt
        simp only [Option.getD_none] at hpt
        obtain rfl : s' = ⟨pt, s.coeff + 1, (s.coeff, s.current) :: s.hist⟩ := by
          injection hpt with hpt; exact hpt.symm
        exact ⟨by dsimp only; omega, by dsimp only; omega, hhist⟩
      | some q =>
        rw [hf] at hpt
        simp only [Option.getD_some] at hpt
        have hq1 : 1 ≤ q.1 := hhist q (List.mem_of_find?_eq_some hf)
        have hq2 : q.1 + s.coeff ≤ times := by simpa using List.find?_some hf
        obtain rfl : s' = ⟨pt, s.coeff + q.1, (s.coeff, s.current) :: s.hist⟩ := by
          injection hpt with hpt; exact hpt.symm
        exact ⟨by dsimp only; omega, by dsimp only; omega, hhist⟩

/-- If one loop iteration exits, the guard failed and the loop returned
the current point together with the unchanged running coefficient. -/
lemma multiplyStep_inr {self : Point} {times : Nat} {s : MulState} {r : Point × Nat}
    (h : multiplyStep self times s = some (Sum.inr r)) :
    ¬ s.coeff < times ∧ r = (s.current, s.coeff) := by
  unfold multiplyStep at h
  split at h
  case isFalse hc => simp only [Option.some.injEq, Sum.inr.injEq] at h; exact ⟨hc, h.symm⟩
  case isTrue hc =>
    split at h <;>
    · simp only [Option.map_eq_some'] at h
      obtain ⟨pt, -, hpt⟩ := h
      simp at hpt

/-- Loop invariant of `Point::multiply`: starting from a state whose
coefficient is in `[1, times]` with all history coefficients at least 1,
a state still running after `m` iterations has gained at least `m` on
its coefficient while staying within `times`, and a normal exit carries
the coefficient `times` exactly. -/
lemma multiplyIter_spec (self : Point) (times : Nat) :
    ∀ (m : Nat) (s : MulState), 1 ≤ s.coeff → s.coeff ≤ times →
      (∀ q ∈ s.hist, 1 ≤ q.1) →
      (∀ s', multiplyIter self times m s = some (Sum.inl s') →
        1 ≤ s'.coeff ∧ s'.coeff ≤ times ∧ s.coeff + m ≤ s'.coeff)
      ∧ (∀ r, multiplyIter self times m s = some (Sum.inr r) → r.2 = times) := by
  intro m
  induction m with
  | zero =>
    intro s h1 h2 hh
    constructor
    · intro s' h
      obtain rfl : s = s' := by simpa [multiplyIter] using h
      exact ⟨h1, h2, by omega⟩
    · intro r h
      simp [multiplyIter] at h
  | succ m ih =>
    intro s h1 h2 hh
    cases hstep : multiplyStep self times s with
    | none =>
      have hred : multiplyIter self times (m + 1) s = none := by
        rw [multiplyIter_succ, hstep]
      refine ⟨fun s' h => ?_, fun r h => ?_⟩ <;> rw [hred] at h <;> cases h
    | some out =>
      cases out with
      | inr r0 =>
        have hred : multiplyIter self times (m + 1) s = some (Sum.inr r0) := by
          rw [multiplyIter_succ, hstep]
        obtain ⟨hlt, rfl⟩ := multiplyStep_inr hstep
        refine ⟨fun s' h => ?_, fun r h => ?_⟩
        · rw [hred] at h; simp at h
        · rw [hred] at h
          obtain rfl : r = (s.current, s.coeff) := by
            injection h with h
            injection h with h
            exact h.symm
          show s.coeff = times
          omega
      | inl s1 =>
        have hred : multiplyIter self times (m + 1) s = multiplyIter self times m s1 := by
          rw [multiplyIter_succ, hstep]
        obtain ⟨hlt, hinc, hle, hh1⟩ := multiplyStep_inl h1 hh hstep
        obtain ⟨ihl, ihr⟩ := ih s1 (by omega) hle hh1
        refine ⟨fun s' h => ?_, fun r h => ihr r (by rw [hred] at h; exact h)⟩
        rw [hred] at h
        obtain ⟨g1, g2, g3⟩ := ihl s' h
        exact ⟨g1, g2, by omega⟩

/-- Claim C9 (confirmed): for every point `P` and scalar `k ≥ 1`, the
`multiply` loop's running coefficient never exceeds `k` while the loop
runs, any normal exit returns with the coefficient exactly `k`, and the
loop performs at most `k` iterations (after `k` iterations it is no
longer running: it has exited or panicked). -/
theorem multiply_loop_reaches_target (P : Point) (k : Nat) (hk : 1 ≤ k) :
    (∀ (m : Nat) (s' : MulState),
        multiplyIter P k m ⟨P, 1, []⟩ = some (Sum.inl s') → s'.coeff ≤ k)
    ∧ (∀ (m : Nat) (r : Point × Nat),
        multiplyIter P k m ⟨P, 1, []⟩ = some (Sum.inr r) → r.2 = k)
    ∧ ∀ s' : MulState, multiplyIter P k k ⟨P, 1, []⟩ ≠ some (Sum.inl s') := by
  have base : ∀ m : Nat,
      (∀ s', multiplyIter P k m ⟨P, 1, []⟩ = some (Sum.inl s') →
        1 ≤ s'.coeff ∧ s'.coeff ≤ k ∧ 1 + m ≤ s'.coeff)
      ∧ (∀ r, multiplyIter P k m ⟨P, 1, []⟩ = some (Sum.inr r) → r.2 = k) :=
    fun m => multiplyIter_spec P k m ⟨P, 1, []⟩ (by norm_num) hk (by simp)
  refine ⟨fun m s' h => ((base m).1 s' h).2.1, fun m r h => (base m).2 r h, ?_⟩
  intro s' h
  obtain ⟨-, h2, h3⟩ := (base k).1 s' h
  omega

/-- Witness for C9 at `P = (2,2)` on `y² = x³ + 7 mod 11`, `k = 3`: the
loop exits after two iterations with point `(2,9)` and coefficient 3. -/
theorem multiply_loop_reaches_target_witness :
    1 ≤ 3 ∧ (((⟨2, 9, c11⟩ : Point), 3) : Point × Nat).2 = 3 :=
  ⟨by decide, (multiply_loop_reaches_target ⟨2, 2, c11⟩ 3 (by decide)).2.1 3
    (⟨2, 9, c11⟩, 3) (by decide)⟩

/-! ## The on-curve invariant (C10) -/

/-- A state still running after one more iteration obtained its new
current point from `Point::add` with the old current point as the left
operand. -/
lemma multiplyStep_inl_add {self : Point} {times : Nat} {s s' : MulState}
    (h : multiplyStep self times s = some (Sum.inl s')) :
    ∃ X pt, Point.add s.current X = some pt ∧ s'.current = pt := by
  unfold multiplyStep at h
  split at h
  case isFalse => simp at h
  case isTrue =>
    split at h <;>
    · simp only [Option.map_eq_some'] at h
      obtain ⟨pt, hadd, hpt⟩ := h
      injection hpt with hpt
      exact ⟨_, pt, hadd, by rw [← hpt]⟩

/-- The loop of `Point::multiply` preserves the on-curve invariant and
the curve configuration of the multiplied point. -/
lemma multiplyIter_onCurve (P : Point) (t : Nat) :
    ∀ (m : Nat) (s : MulState), OnCurve s.current →
      s.current.curve_config = P.curve_config →
      (∀ s', multiplyIter P t m s = some (Sum.inl s') →
        OnCurve s'.current ∧ s'.current.curve_config = P.curve_config)
      ∧ (∀ r, multiplyIter P t m s = some (Sum.inr r) →
        OnCurve r.1 ∧ r.1.curve_config = P.curve_config) := by
  intro m
  induction m with
  | zero =>
    intro s hc hcfg
    constructor
    · intro s' h
      obtain rfl : s = s' := by simpa [multiplyIter] using h
      exact ⟨hc, hcfg⟩
    · intro r h
      simp [multiplyIter] at h
  | succ m ih =>
    intro s hc hcfg
    cases hstep : multiplyStep P t s with
    | none =>
      have hred : multiplyIter P t (m + 1) s = none := by
        rw [multiplyIter_succ, hstep]
      refine ⟨fun s' h => ?_, fun r h => ?_⟩ <;> rw [hred] at h <;> cases h
    | some out =>
      cases out with
      | inr r0 =>
        have hred : multiplyIter P t (m + 1) s = some (Sum.inr r0) := by
          rw [multiplyIter_succ, hstep]
        obtain ⟨-, rfl⟩ := multiplyStep_inr hstep
        refine ⟨fun s' h => ?_, fun r h => ?_⟩
        · rw [hred] at h; simp at h
        · rw [hred] at h
          obtain rfl : r = (s.current, s.coeff) := by
            injection h with h
            injection h with h
            exact h.symm
          exact ⟨hc, hcfg⟩
      | inl s1 =>
        have hred : multiplyIter P t (m + 1) s = multiplyIter P t m s1 := by
          rw [multiplyIter_succ, hstep]
        obtain ⟨X, pt, hadd, hcur⟩ := multiplyStep_inl_add hstep
        have h1 := add_some hadd
        have hc1 : OnCurve s1.current := by rw [hcur]; exact h1.1
        have hcfg1 : s1.current.curve_config = P.curve_config := by
          rw [hcur, h1.2]; exact hcfg
        obtain ⟨ihl, ihr⟩ := ih s1 hc1 hcfg1
        exact ⟨fun s' h => ihl s' (hred ▸ h), fun r h => ihr r (hred ▸ h)⟩

/-- Claim C10 (confirmed): every point returned by `Point::add`
satisfies the curve equation of its configuration and carries the
configuration of the left operand (every result passes through the
checked constructor `Point::new`); consequently, for an on-curve input,
every point produced by `Point::multiply` is on the curve and keeps the
input's configuration. -/
theorem add_multiply_preserve_invariant :
    (∀ P Q R : Point, Point.add P Q = some R →
      OnCurve R ∧ R.curve_config = P.curve_config)
    ∧ ∀ (P : Point) (t : Nat) (R : Point), OnCurve P → Point.multiply P t = some R →
        OnCurve R ∧ R.curve_config = P.curve_config := by
  refine ⟨fun P Q R h => add_some h, fun P t R hP h => ?_⟩
  unfold Point.multiply at h
  simp only [Option.map_eq_some'] at h
  obtain ⟨r0, hloop, hfst⟩ := h
  unfold multiplyLoop at hloop
  cases hiter : multiplyIter P t (t + 1) ⟨P, 1, []⟩ with
  | none => rw [hiter] at hloop; simp at hloop
  | some out =>
    cases out with
    | inl s' => rw [hiter] at hloop; simp at hloop
    | inr r1 =>
      rw [hiter] at hloop
      have hr : r1 = r0 := by simpa using hloop
      have hres := (multiplyIter_onCurve P t (t + 1) ⟨P, 1, []⟩ hP rfl).2 r1 hiter
      rw [← hfst, ← hr]
      exact hres

/-- Witness for C10: adding `(2,2)` to itself on `y² = x³ + 7 mod 11`
yields `(5,0)`, which is on the curve and keeps the configuration. -/
theorem add_multiply_preserve_invariant_witness :
    OnCurve ⟨5, 0, c11⟩ ∧ (⟨5, 0, c11⟩ : Point).curve_config = c11 :=
  add_multiply_preserve_invariant.1 ⟨2, 2, c11⟩ ⟨2, 2, c11⟩ ⟨5, 0, c11⟩ (by decide)

/-! ## The unreduced comparison in `verify_signature` (C1) -/

/-- A field modulus exceeding the hardcoded curve order `n`:
`pBig = n + 10`. -/
def pBig : Nat := 115792089237316195423570985008687907852837564279074904382605163141518161494347

/-- A curve configuration whose field modulus exceeds the hardcoded
curve order `n`: `a = pBig - 256`, `b = 1576` (fitted so that `(9,1)`
and `(10,4)` are valid points and their sum has x-coordinate exactly
`n`). -/
def cfgBig : CurveConfig := ⟨pBig - 256, 1576, pBig⟩

/-- Claim C1 (code_bug): `verify_signature` compares `C.x == r` on the
raw field element without reducing `C.x` modulo `n`.  With the valid
points `G = (9,1)` and `Q = (10,4)` of `cfgBig`, message `m = 1` and
signature `(r, s) = (n, 1)`, the code computes `u = 1`, `v = 0`,
`C = G.multiply(1).add(Q.multiply(0)) = G.add(Q) = (n, 56)` and returns
`true` (since `C.x = n = r`), although `C.x mod n = 0 ≠ r`, so the
claimed iff (reduction mod `n` before comparing) is violated. -/
theorem verify_compares_unreduced :
    Point.new 9 1 cfgBig = some ⟨9, 1, cfgBig⟩ ∧
    Point.new 10 4 cfgBig = some ⟨10, 4, cfgBig⟩ ∧
    Point.add ⟨9, 1, cfgBig⟩ ⟨10, 4, cfgBig⟩ = some ⟨nOrder, 56, cfgBig⟩ ∧
    verify_signature (nOrder, 1) 1 ⟨10, 4, cfgBig⟩ ⟨9, 1, cfgBig⟩ = some true ∧
    nOrder % nOrder ≠ nOrder := by
  have hip : mod_inverse 1 pBig = some 1 := mod_inverse_one (by norm_num [pBig])
  have hin : mod_inverse 1 nOrder = some 1 := mod_inverse_one (by norm_num [nOrder])
  have hadd : Point.add ⟨9, 1, cfgBig⟩ ⟨10, 4, cfgBig⟩ = some ⟨nOrder, 56, cfgBig⟩ := by
    have h0 : Point.add ⟨9, 1, cfgBig⟩ ⟨10, 4, cfgBig⟩ =
        ((csub 4 1).bind fun numerator =>
          (csub 10 9).bind fun denominator =>
            (mod_inverse denominator pBig).map fun inv =>
              numerator * inv % pBig).bind fun slope =>
          (csub (slope * slope + pBig) 9).bind fun t1 =>
          (csub t1 10).bind fun t2 =>
          (csub (9 + pBig) (t2 % pBig)).bind fun t3 =>
          (csub (slope * t3) 1).bind fun t4 =>
          Point.new (t2 % pBig) ((t4 + pBig) % pBig) cfgBig := rfl
    have hslope : ((csub 4 1).bind fun numerator =>
        (csub 10 9).bind fun denominator =>
          (mod_inverse denominator pBig).map fun inv =>
            numerator * inv % pBig) = some 3 := by
      rw [show csub 4 1 = some 3 from rfl, Option.some_bind]
      show ((csub 10 9).bind fun denominator =>
        (mod_inverse denominator pBig).map fun inv => 3 * inv % pBig) = some 3
      rw [show csub 10 9 = some 1 from rfl, Option.some_bind]
      show ((mod_inverse 1 pBig).map fun inv => 3 * inv % pBig) = some 3
      rw [hip]
      rfl
    rw [h0, hslope, Option.some_bind]
    show ((csub (3 * 3 + pBig) 9).bind fun t1 =>
      (csub t1 10).bind fun t2 =>
      (csub (9 + pBig) (t2 % pBig)).bind fun t3 =>
      (csub (3 * t3) 1).bind fun t4 =>
      Point.new (t2 % pBig) ((t4 + pBig) % pBig) cfgBig) = some ⟨nOrder, 56, cfgBig⟩
    rfl
  refine ⟨by decide, by decide, hadd, ?_, by decide⟩
  have h1 : verify_signature (nOrder, 1) 1 ⟨10, 4, cfgBig⟩ ⟨9, 1, cfgBig⟩ =
      (mod_inverse 1 nOrder).bind fun s_inverse =>
        (Point.multiply ⟨9, 1, cfgBig⟩ (1 * s_inverse % nOrder)).bind fun a1 =>
        (Point.multiply ⟨10, 4, cfgBig⟩ (nOrder * s_inverse % nOrder)).bind fun b1 =>
        (a1.add b1).map fun c_point => decide (c_point.x = nOrder) := rfl
  rw [h1, hin, Option.some_bind]
  show ((Point.multiply ⟨9, 1, cfgBig⟩ 1).bind fun a1 =>
    (Point.multiply ⟨10, 4, cfgBig⟩ 0).bind fun b1 =>
    (a1.add b1).map fun c_point => decide (c_point.x = nOrder)) = some true
  rw [multiply_one, Option.some_bind]
  show ((Point.multiply ⟨10, 4, cfgBig⟩ 0).bind fun b1 =>
    (Point.add ⟨9, 1, cfgBig⟩ b1).map fun c_point => decide (c_point.x = nOrder)) = some true
  rw [multiply_zero, Option.some_bind]
  show ((Point.add ⟨9, 1, cfgBig⟩ ⟨10, 4, cfgBig⟩).map fun c_point =>
    decide (c_point.x = nOrder)) = some true
  rw [hadd]
  rfl

end SimpleEcdsa
